import Mathlib

/-!
Verification of the `StreamImageCache` subsystem of `src/stream_images.py`.

The cache is an in-memory, size-bounded, TTL-expiring, disk-backed store
keyed by strings of the form `"{page}:{image_id}"`.  Python's insertion-ordered
`dict` is embedded as an association list (`List (String × _)`) in insertion
order; `datetime.now()` timestamps are `Nat` instants supplied explicitly at
each call; `bytes` payloads are lists of byte values; the disk directory is a
second association list from filename to payload.  `self.memory_used` is a
Python integer, embedded as `Int`.
-/

/-- A `bytes` payload: a sequence of byte values. -/
abbrev ByteSeq := List Nat

/-- Python `d[k]` / `k in d`: find the value stored under key `k`. -/
def dictLookup {α : Type} (k : String) : List (String × α) → Option α
  | [] => none
  | (k1, v) :: rest => if k1 = k then some v else dictLookup k rest

/-- Python `d[k] = v`: replace the value in place if `k` is present
(keeping its position in insertion order), otherwise append at the end. -/
def dictInsert {α : Type} (k : String) (v : α) : List (String × α) → List (String × α)
  | [] => [(k, v)]
  | (k1, v1) :: rest => if k1 = k then (k, v) :: rest else (k1, v1) :: dictInsert k v rest

/-- Python `del d[k]`: drop the entry stored under `k` (the first one,
which is the only one for a well-formed dict). -/
def dictErase {α : Type} (k : String) : List (String × α) → List (String × α)
  | [] => []
  | (k1, v1) :: rest => if k1 = k then rest else (k1, v1) :: dictErase k rest

/-- Python `s.startswith(p)`. -/
def strStartsWith (p s : String) : Bool := p.data.isPrefixOf s.data

/-- Python `s.endswith(p)`. -/
def strEndsWith (p s : String) : Bool := p.data.isSuffixOf s.data

/-- Python `s.replace(":", "_")`: replace every colon by an underscore. -/
def replaceColon (s : String) : String := ⟨s.data.map (fun c => if c = ':' then '_' else c)⟩

/-- State of one `StreamImageCache` instance.

* `memory_cache` — `self.memory_cache : Dict[str, Tuple[bytes, datetime]]`,
  in insertion order;
* `memory_used` — `self.memory_used`;
* `max_memory_bytes` — `self.max_memory_bytes`;
* `ttl` — `self.ttl` as a duration in abstract time units;
* `disk` — the contents of `self.cache_dir`: filename ↦ file bytes. -/
structure CacheState where
  memory_cache : List (String × (ByteSeq × Nat))
  memory_used : Int
  max_memory_bytes : Int
  ttl : Nat
  disk : List (String × ByteSeq)
deriving DecidableEq, Repr

/-- The composite cache key `f"{page}:{image_id}"` (line 119 / 130). -/
def cacheKey (page image_id : String) : String := page ++ ":" ++ image_id

/-- `_get_disk_path` (lines 219–222): `f"{page}_{cache_key.replace(':', '_')}.img"`,
returned as a filename inside the cache directory. -/
def get_disk_path (cache_key page : String) : String :=
  page ++ "_" ++ replaceColon cache_key ++ ".img"

/-- Ordering used by `_evict_old_entries`'s `sorted(..., key=lambda x: x[1][1])`:
compare entries by insertion timestamp. -/
def entryLE (a b : String × (ByteSeq × Nat)) : Prop := a.2.2 ≤ b.2.2

instance : DecidableRel entryLE := fun a b => Nat.decLe a.2.2 b.2.2

instance : IsTotal (String × (ByteSeq × Nat)) entryLE := ⟨fun a b => Nat.le_total a.2.2 b.2.2⟩

instance : IsTrans (String × (ByteSeq × Nat)) entryLE := ⟨fun _ _ _ => Nat.le_trans⟩

/-- `_evict_old_entries` (lines 189–208): on an empty table return unchanged;
otherwise sort the items by timestamp (Python's `sorted` is stable, as is
`List.insertionSort`), delete the oldest `max(1, count // 5)` of them and
subtract their payload sizes from `memory_used`. -/
def evict_old_entries (s : CacheState) : CacheState :=
  if s.memory_cache = [] then s
  else
    let sorted_items := List.insertionSort entryLE s.memory_cache
    let remove_count := max 1 (sorted_items.length / 5)
    let victims := sorted_items.take remove_count
    let removed_size : Int := (victims.map (fun v => (v.2.1.length : Int))).sum
    { s with
      memory_cache := s.memory_cache.filter (fun e => victims.all (fun v => !(v.1 == e.1))),
      memory_used := s.memory_used - removed_size }

/-- `_save_to_disk` (lines 210–217), successful path: write the payload to the
file `_get_disk_path(cache_key, page)`, overwriting any previous content. -/
def save_to_disk (s : CacheState) (cache_key : String) (data : ByteSeq) (page : String) :
    CacheState :=
  { s with disk := dictInsert (get_disk_path cache_key page) data s.disk }

/-- `cache_image` (lines 99–126) at instant `now`: evict if
`memory_used + len(image_data) > max_memory_bytes`, insert
`(image_data, now)` under `f"{page}:{image_id}"`, add the size to
`memory_used`, write through to disk, return `True`. -/
def cache_image (s : CacheState) (now : Nat) (image_id : String) (image_data : ByteSeq)
    (page : String) : CacheState × Bool :=
  let image_size : Int := image_data.length
  let s1 := if s.memory_used + image_size > s.max_memory_bytes then evict_old_entries s else s
  let cache_key := cacheKey page image_id
  let s2 := { s1 with
              memory_cache := dictInsert cache_key (image_data, now) s1.memory_cache,
              memory_used := s1.memory_used + image_size }
  (save_to_disk s2 cache_key image_data page, true)

/-- The disk-fallback tail of `get_image` (lines 141–154), successful-read
path: if the disk file exists, read it, restore it to memory stamped with the
current instant, add its size to `memory_used` and return it; else `None`. -/
def diskFallback (s : CacheState) (now : Nat) (cache_key page : String) :
    CacheState × Option ByteSeq :=
  match dictLookup (get_disk_path cache_key page) s.disk with
  | some data =>
      ({ s with
         memory_cache := dictInsert cache_key (data, now) s.memory_cache,
         memory_used := s.memory_used + (data.length : Int) }, some data)
  | none => (s, none)

/-- `get_image` (lines 128–154) at instant `now`: memory hit if the entry is
younger than `ttl` (`datetime.now() - timestamp < self.ttl`); on an expired
entry delete it from memory (without touching `memory_used`) and fall through
to the disk path; on a plain miss fall through directly. -/
def get_image (s : CacheState) (now : Nat) (image_id : String) (page : String) :
    CacheState × Option ByteSeq :=
  let cache_key := cacheKey page image_id
  match dictLookup cache_key s.memory_cache with
  | some (data, timestamp) =>
      if now - timestamp < s.ttl then (s, some data)
      else diskFallback { s with memory_cache := dictErase cache_key s.memory_cache }
        now cache_key page
  | none => diskFallback s now cache_key page

/-- Filename test of the glob `f"{page}_*.img"` used at line 173: the name
starts with `page ++ "_"`, ends with `".img"`, and is long enough that the
`*` matches a (possibly empty) remainder. -/
def globMatches (page name : String) : Bool :=
  strStartsWith (page ++ "_") name && strEndsWith ".img" name &&
    decide ((page ++ "_").length + 4 ≤ name.length)

/-- `clear_page_cache` (lines 156–176), successful-unlink path: drop every
memory entry whose key starts with `f"{page}:"`, subtract their sizes, delete
every disk file matching the glob `f"{page}_*.img"`, and return the number of
memory entries removed. -/
def clear_page_cache (s : CacheState) (page : String) : CacheState × Nat :=
  let pre := page ++ ":"
  let keys_to_remove := s.memory_cache.filter (fun e => strStartsWith pre e.1)
  let removed_size : Int := (keys_to_remove.map (fun e => (e.2.1.length : Int))).sum
  let s1 := { s with
              memory_cache := s.memory_cache.filter (fun e => !(strStartsWith pre e.1)),
              memory_used := s.memory_used - removed_size,
              disk := s.disk.filter (fun f => !(globMatches page f.1)) }
  (s1, keys_to_remove.length)

/-- Well-formedness of the embedded dict: keys are pairwise distinct
(automatic for a Python `dict`, an invariant of the association list here). -/
def WF (s : CacheState) : Prop := (s.memory_cache.map Prod.fst).Nodup

instance : DecidablePred WF := fun s => List.nodupDecidable (s.memory_cache.map Prod.fst)

/-- Sum of `len(payload)` over the entries currently in the memory table. -/
def bytesInTable (s : CacheState) : Int :=
  (s.memory_cache.map (fun e => (e.2.1.length : Int))).sum

/-!
Fallible-disk variants.  The pure operations above model runs in which every
disk call succeeds; the variants below make each disk call's outcome explicit,
to settle the error-handling claims.  `_save_to_disk` and the disk read inside
`get_image` are wrapped in `try/except` in the source, so a failure there is
absorbed; the `file.unlink()` loop in `clear_page_cache` (lines 173–174) is
not wrapped, so a failing unlink raises out of the method after the memory
mutations have already been applied.
-/

/-- `_save_to_disk` with explicit outcome: on an I/O error the exception is
caught and logged (lines 216–217), leaving the disk unchanged. -/
def save_to_diskE (writeFails : Bool) (s : CacheState) (cache_key : String) (data : ByteSeq)
    (page : String) : CacheState :=
  if writeFails then s else save_to_disk s cache_key data page

/-- `cache_image` with explicit disk-write outcome: identical to `cache_image`
except that the write-through may fail, which is absorbed. -/
def cache_imageE (writeFails : Bool) (s : CacheState) (now : Nat) (image_id : String)
    (image_data : ByteSeq) (page : String) : CacheState × Bool :=
  let image_size : Int := image_data.length
  let s1 := if s.memory_used + image_size > s.max_memory_bytes then evict_old_entries s else s
  let cache_key := cacheKey page image_id
  let s2 := { s1 with
              memory_cache := dictInsert cache_key (image_data, now) s1.memory_cache,
              memory_used := s1.memory_used + image_size }
  (save_to_diskE writeFails s2 cache_key image_data page, true)

/-- The `file.unlink()` loop of `clear_page_cache` (lines 173–174) over the
matching filenames, with a per-file failure oracle: each successful unlink
removes the file; the first failing unlink raises (`false` flag), aborting the
loop with the deletions made so far kept. -/
def unlinkAll (fails : String → Bool) : List String → List (String × ByteSeq) →
    List (String × ByteSeq) × Bool
  | [], disk => (disk, true)
  | f :: fs, disk => if fails f then (disk, false) else unlinkAll fails fs (dictErase f disk)

/-- `clear_page_cache` with explicit unlink outcomes: the memory mutations
happen first (lines 162–170); the unlink loop then either completes, and the
count is returned (`Except.ok`), or raises, and the exception escapes the
method (`Except.error ()`) — there is no `try/except` around it. -/
def clear_page_cacheE (fails : String → Bool) (s : CacheState) (page : String) :
    CacheState × Except Unit Nat :=
  let pre := page ++ ":"
  let keys_to_remove := s.memory_cache.filter (fun e => strStartsWith pre e.1)
  let removed_size : Int := (keys_to_remove.map (fun e => (e.2.1.length : Int))).sum
  let s1 := { s with
              memory_cache := s.memory_cache.filter (fun e => !(strStartsWith pre e.1)),
              memory_used := s.memory_used - removed_size }
  let files := (s1.disk.filter (fun f => globMatches page f.1)).map Prod.fst
  match unlinkAll fails files s1.disk with
  | (disk1, true) => ({ s1 with disk := disk1 }, Except.ok keys_to_remove.length)
  | (disk1, false) => ({ s1 with disk := disk1 }, Except.error ())

/-! ### Association-list (Python dict) lemmas -/

theorem dictLookup_insert_self {α : Type} (k : String) (v : α) (l : List (String × α)) :
    dictLookup k (dictInsert k v l) = some v := by
  induction l with
  | nil => simp [dictInsert, dictLookup]
  | cons e rest ih =>
    obtain ⟨k1, v1⟩ := e
    by_cases h : k1 = k
    · simp [dictInsert, dictLookup, h]
    · simp [dictInsert, dictLookup, h, ih]

theorem dictLookup_insert_ne {α : Type} {k k1 : String} (h : k1 ≠ k) (v : α)
    (l : List (String × α)) : dictLookup k1 (dictInsert k v l) = dictLookup k1 l := by
  induction l with
  | nil => simp [dictInsert, dictLookup, Ne.symm h]
  | cons e rest ih =>
    obtain ⟨k2, v2⟩ := e
    by_cases h2 : k2 = k
    · subst h2
      simp [dictInsert, dictLookup, Ne.symm h]
    · simp [dictInsert, dictLookup, h2, ih]

theorem dictLookup_erase_ne {α : Type} {k k1 : String} (h : k1 ≠ k)
    (l : List (String × α)) : dictLookup k1 (dictErase k l) = dictLookup k1 l := by
  induction l with
  | nil => simp [dictErase]
  | cons e rest ih =>
    obtain ⟨k2, v2⟩ := e
    by_cases h2 : k2 = k
    · subst h2
      simp [dictErase, dictLookup, Ne.symm h]
    · simp [dictErase, dictLookup, h2, ih]

theorem dictLookup_eq_none_iff {α : Type} (k : String) (l : List (String × α)) :
    dictLookup k l = none ↔ k ∉ l.map Prod.fst := by
  induction l with
  | nil => simp [dictLookup]
  | cons e rest ih =>
    obtain ⟨k1, v1⟩ := e
    by_cases h : k1 = k
    · simp [dictLookup, h]
    · simp [dictLookup, h, ih, Ne.symm h]

theorem dictLookup_erase_self {α : Type} (k : String) {l : List (String × α)}
    (h : (l.map Prod.fst).Nodup) : dictLookup k (dictErase k l) = none := by
  induction l with
  | nil => simp [dictErase, dictLookup]
  | cons e rest ih =>
    obtain ⟨k1, v1⟩ := e
    simp only [List.map_cons, List.nodup_cons] at h
    by_cases h1 : k1 = k
    · subst h1
      simpa [dictErase, dictLookup_eq_none_iff] using h.1
    · simp [dictErase, dictLookup, h1, ih h.2]

theorem mem_keys_dictInsert {α : Type} (x k : String) (v : α) (l : List (String × α)) :
    x ∈ (dictInsert k v l).map Prod.fst ↔ x ∈ l.map Prod.fst ∨ x = k := by
  induction l with
  | nil => simp [dictInsert]
  | cons e rest ih =>
    obtain ⟨k1, v1⟩ := e
    by_cases h : k1 = k
    · subst h
      simp [dictInsert]
      tauto
    · simp [dictInsert, h, ih]
      tauto

theorem nodup_keys_dictInsert {α : Type} (k : String) (v : α) {l : List (String × α)}
    (h : (l.map Prod.fst).Nodup) : ((dictInsert k v l).map Prod.fst).Nodup := by
  induction l with
  | nil => simp [dictInsert]
  | cons e rest ih =>
    obtain ⟨k1, v1⟩ := e
    simp only [List.map_cons, List.nodup_cons] at h
    by_cases h1 : k1 = k
    · subst h1
      simp [dictInsert, h.1, h.2]
    · simp only [dictInsert, if_neg h1, List.map_cons, List.nodup_cons]
      refine ⟨fun hmem => ?_, ih h.2⟩
      rcases (mem_keys_dictInsert k1 k v rest).mp hmem with hin | heq
      · exact h.1 hin
      · exact h1 heq

theorem nodup_keys_filter {α : Type} (p : String × α → Bool) {l : List (String × α)}
    (h : (l.map Prod.fst).Nodup) : ((l.filter p).map Prod.fst).Nodup :=
  List.Nodup.sublist (List.Sublist.map Prod.fst (List.filter_sublist l)) h

/-- `_evict_old_entries` preserves key distinctness. -/
theorem WF_evict (s : CacheState) (h : WF s) : WF (evict_old_entries s) := by
  unfold evict_old_entries
  split
  · exact h
  · exact nodup_keys_filter _ h

/-- Memory table after `cache_image`: the new entry is inserted into the
(possibly swept) table. -/
theorem cache_image_memory (s : CacheState) (now : Nat) (image_id : String)
    (image_data : ByteSeq) (page : String) :
    (cache_image s now image_id image_data page).1.memory_cache
      = dictInsert (cacheKey page image_id) (image_data, now)
          (if s.memory_used + (image_data.length : Int) > s.max_memory_bytes
           then evict_old_entries s else s).memory_cache := rfl

/-- Disk after `cache_image`: write-through at the derived path. -/
theorem cache_image_disk (s : CacheState) (now : Nat) (image_id : String)
    (image_data : ByteSeq) (page : String) :
    (cache_image s now image_id image_data page).1.disk
      = dictInsert (get_disk_path (cacheKey page image_id) page) image_data
          (if s.memory_used + (image_data.length : Int) > s.max_memory_bytes
           then evict_old_entries s else s).disk := rfl

/-- `cache_image` preserves the configured `ttl`. -/
theorem cache_image_ttl (s : CacheState) (now : Nat) (image_id : String)
    (image_data : ByteSeq) (page : String) :
    (cache_image s now image_id image_data page).1.ttl = s.ttl := by
  show (if s.memory_used + (image_data.length : Int) > s.max_memory_bytes
        then evict_old_entries s else s).ttl = s.ttl
  split
  · unfold evict_old_entries
    split <;> rfl
  · rfl

/-- `cache_image` preserves key distinctness. -/
theorem WF_cache_image (s : CacheState) (now : Nat) (image_id : String) (image_data : ByteSeq)
    (page : String) (h : WF s) : WF (cache_image s now image_id image_data page).1 := by
  unfold WF
  rw [cache_image_memory]
  split
  · exact nodup_keys_dictInsert _ _ (WF_evict s h)
  · exact nodup_keys_dictInsert _ _ h

/-! ### Claim theorems -/

/-- C1 (refuted — accounting bug in the code): re-inserting an already-present
`(page, image_id)` key replaces the entry but adds its size to `memory_used`
again (line 121 has no compensation for the overwritten payload), so after two
`cache_image("img", 3-byte payload, "p")` calls the counter reads 6 while the
single entry in the table holds 3 bytes — the invariant
`memory_used == sum(len(payload))` fails after a mutating operation. -/
theorem c1_reinsert_breaks_accounting :
    ((cache_image (cache_image ⟨[], 0, 1000000, 100, []⟩ 0 "img" [0, 0, 0] "p").1
        1 "img" [0, 0, 0] "p").1.memory_used = 6)
    ∧ (bytesInTable (cache_image (cache_image ⟨[], 0, 1000000, 100, []⟩ 0 "img" [0, 0, 0] "p").1
        1 "img" [0, 0, 0] "p").1 = 3) := by decide

/-- State reached by caching one image under each of the pages `"gallery"`,
`"gallery_old"` and `"gallery2"` into a fresh cache. -/
def c3s : CacheState :=
  (cache_image (cache_image (cache_image ⟨[], 0, 1000000, 100, []⟩
      0 "id1" [1] "gallery").1 1 "id2" [2] "gallery_old").1 2 "id3" [3] "gallery2").1

/-- C3 (refuted on disk — glob prefix collision): `clear_page_cache("gallery")`
deletes its own memory entry and disk file and leaves page `"gallery2"` alone,
but the glob `"gallery_*.img"` (line 173) also matches the file
`"gallery_old_gallery_old_id2.img"` of page `"gallery_old"`, so that page's
disk mirror is deleted while its memory entry survives. -/
theorem c3_clear_deletes_gallery_old_disk_file :
    dictLookup "gallery_old_gallery_old_id2.img" c3s.disk = some [2]
    ∧ dictLookup "gallery_old_gallery_old_id2.img"
        (clear_page_cache c3s "gallery").1.disk = none
    ∧ dictLookup (cacheKey "gallery_old" "id2")
        (clear_page_cache c3s "gallery").1.memory_cache = some ([2], 1)
    ∧ dictLookup "gallery2_gallery2_id3.img" (clear_page_cache c3s "gallery").1.disk = some [3]
    ∧ dictLookup (cacheKey "gallery2" "id3")
        (clear_page_cache c3s "gallery").1.memory_cache = some ([3], 2)
    ∧ dictLookup (cacheKey "gallery" "id1")
        (clear_page_cache c3s "gallery").1.memory_cache = none
    ∧ dictLookup "gallery_gallery_id1.img" (clear_page_cache c3s "gallery").1.disk = none := by
  decide

/-- State holding one cached image for page `"p"`, mirrored on disk. -/
def c4s : CacheState :=
  ⟨[(cacheKey "p" "a", ([1], 0))], 1, 1000000, 100, [("p_p_a.img", [1])]⟩

/-- C4 (refuted — unhandled delete failure): the `file.unlink()` loop of
`clear_page_cache` (lines 173–174) has no `try/except`, so when the unlink of
the matching disk file fails the exception escapes the façade instead of being
absorbed; with no failure the call returns the count normally. -/
theorem c4_unlink_failure_escapes :
    (clear_page_cacheE (fun _ => true) c4s "p").2 = Except.error ()
    ∧ (clear_page_cacheE (fun _ => false) c4s "p").2 = Except.ok 1 := ⟨rfl, rfl⟩

/-- C7: `cache_image` always reports success and always installs the new entry
(stamped with the call instant) under its key — even an oversized payload is
accepted and is never a victim of the sweep that precedes its own insertion;
the capacity sweep runs exactly when `memory_used + len(payload)` strictly
exceeds `max_memory_bytes`, and it runs before the insert. -/
theorem c7_capacity_sweep_gating (s : CacheState) (now : Nat) (image_id : String)
    (image_data : ByteSeq) (page : String) :
    (cache_image s now image_id image_data page).2 = true
    ∧ dictLookup (cacheKey page image_id)
        (cache_image s now image_id image_data page).1.memory_cache
        = some (image_data, now)
    ∧ (s.memory_used + (image_data.length : Int) ≤ s.max_memory_bytes →
        (cache_image s now image_id image_data page).1.memory_cache
          = dictInsert (cacheKey page image_id) (image_data, now) s.memory_cache)
    ∧ (s.memory_used + (image_data.length : Int) > s.max_memory_bytes →
        (cache_image s now image_id image_data page).1.memory_cache
          = dictInsert (cacheKey page image_id) (image_data, now)
              (evict_old_entries s).memory_cache) := by
  refine ⟨rfl, ?_, fun hle => ?_, fun hgt => ?_⟩
  · rw [cache_image_memory]
    exact dictLookup_insert_self _ _ _
  · rw [cache_image_memory, if_neg (not_lt.mpr hle)]
  · rw [cache_image_memory, if_pos hgt]

/-- A full cache (2 bytes used of capacity 3) about to receive a 3-byte
payload, so the sweep must run. -/
def c7s : CacheState := ⟨[("p:old", ([1, 1], 0))], 2, 3, 100, []⟩

/-- Witness for C7: inserting a 3-byte payload into `c7s` triggers the sweep
(2 + 3 > 3), which runs before the insert, and the call succeeds with the new
entry installed. -/
theorem c7_capacity_sweep_gating_witness :
    (cache_image c7s 5 "new" [2, 2, 2] "p").2 = true
    ∧ dictLookup (cacheKey "p" "new") (cache_image c7s 5 "new" [2, 2, 2] "p").1.memory_cache
        = some ([2, 2, 2], 5)
    ∧ (cache_image c7s 5 "new" [2, 2, 2] "p").1.memory_cache
        = dictInsert (cacheKey "p" "new") ([2, 2, 2], 5) (evict_old_entries c7s).memory_cache :=
  ⟨(c7_capacity_sweep_gating c7s 5 "new" [2, 2, 2] "p").1,
   (c7_capacity_sweep_gating c7s 5 "new" [2, 2, 2] "p").2.1,
   (c7_capacity_sweep_gating c7s 5 "new" [2, 2, 2] "p").2.2.2 (by decide)⟩

/-- C8: `cache_image` reports success on every input — the in-memory insert is
a plain dict assignment that always succeeds, and the returned flag is `True`
whether or not the best-effort disk write-through fails. -/
theorem c8_cache_image_always_true (writeFails : Bool) (s : CacheState) (now : Nat)
    (image_id : String) (image_data : ByteSeq) (page : String) :
    (cache_imageE writeFails s now image_id image_data page).2 = true
    ∧ (cache_image s now image_id image_data page).2 = true := ⟨rfl, rfl⟩

/-- C10: the capacity sweep on an empty memory table is a no-op (lines
191–192), so `cache_image` into an empty cache always just inserts the new
entry — even one whose size alone exceeds the capacity — and succeeds. -/
theorem c10_empty_sweep_noop (s : CacheState) (now : Nat) (image_id : String)
    (image_data : ByteSeq) (page : String) (h : s.memory_cache = []) :
    evict_old_entries s = s
    ∧ (cache_image s now image_id image_data page).1.memory_cache
        = [(cacheKey page image_id, (image_data, now))]
    ∧ (cache_image s now image_id image_data page).2 = true := by
  have he : evict_old_entries s = s := by
    unfold evict_old_entries
    simp [h]
  refine ⟨he, ?_, rfl⟩
  rw [cache_image_memory]
  split <;> simp [he, h, dictInsert]

/-- Witness for C10: an 11-byte payload into an empty cache of capacity 10 is
inserted with no eviction. -/
theorem c10_empty_sweep_noop_witness :
    evict_old_entries (⟨[], 0, 10, 5, []⟩ : CacheState) = (⟨[], 0, 10, 5, []⟩ : CacheState)
    ∧ (cache_image ⟨[], 0, 10, 5, []⟩ 3 "big" [0, 1, 2, 3, 4, 5, 6, 7, 8, 9, 10] "p").1.memory_cache
        = [(cacheKey "p" "big", ([0, 1, 2, 3, 4, 5, 6, 7, 8, 9, 10], 3))]
    ∧ (cache_image ⟨[], 0, 10, 5, []⟩ 3 "big" [0, 1, 2, 3, 4, 5, 6, 7, 8, 9, 10] "p").2 = true :=
  c10_empty_sweep_noop ⟨[], 0, 10, 5, []⟩ 3 "big" [0, 1, 2, 3, 4, 5, 6, 7, 8, 9, 10] "p" rfl

/-- C5: TTL is checked lazily on read against the entry's insertion instant:
an entry `(data, t0)` is served from memory at any read instant `t < t0 + ttl`
with no state change; at `t ≥ t0 + ttl` it is a memory miss — the key is
deleted from the memory table and the call falls through to the disk path,
whose outcome is exactly the disk file's content, resurrected into memory
with the fresh insertion instant `t` when present. -/
theorem c5_ttl_expiry (s : CacheState) (t0 t : Nat) (image_id page : String) (data : ByteSeq)
    (hwf : WF s)
    (hmem : dictLookup (cacheKey page image_id) s.memory_cache = some (data, t0))
    (hclock : t0 ≤ t) :
    (t < t0 + s.ttl → get_image s t image_id page = (s, some data))
    ∧ (t0 + s.ttl ≤ t →
        (get_image s t image_id page).2
            = dictLookup (get_disk_path (cacheKey page image_id) page) s.disk
        ∧ dictLookup (cacheKey page image_id) (get_image s t image_id page).1.memory_cache
            = Option.map (fun d => (d, t))
                (dictLookup (get_disk_path (cacheKey page image_id) page) s.disk)) := by
  have hwf1 : (s.memory_cache.map Prod.fst).Nodup := hwf
  constructor
  · intro h1
    have hfresh : t - t0 < s.ttl := by omega
    simp [get_image, hmem, hfresh]
  · intro h2
    have hstale : ¬t - t0 < s.ttl := by omega
    cases hd : dictLookup (get_disk_path (cacheKey page image_id) page) s.disk with
    | some d =>
        constructor
        · simp [get_image, hmem, hstale, diskFallback, hd]
        · simp [get_image, hmem, hstale, diskFallback, hd, dictLookup_insert_self]
    | none =>
        constructor
        · simp [get_image, hmem, hstale, diskFallback, hd]
        · simp [get_image, hmem, hstale, diskFallback, hd,
            dictLookup_erase_self (cacheKey page image_id) hwf1]

/-- A cache holding `("p:i" ↦ ([7], inserted at 0))` with `ttl = 10` and the
matching disk mirror file present. -/
def c5s : CacheState := ⟨[("p:i", ([7], 0))], 1, 1000, 10, [("p_p_i.img", [7])]⟩

/-- Witness for C5: reading at instant 10 = 0 + ttl is a memory miss that
resurrects the entry from disk with fresh timestamp 10. -/
theorem c5_ttl_expiry_witness :
    (get_image c5s 10 "i" "p").2
        = dictLookup (get_disk_path (cacheKey "p" "i") "p") c5s.disk
    ∧ dictLookup (cacheKey "p" "i") (get_image c5s 10 "i" "p").1.memory_cache
        = Option.map (fun d => (d, 10))
            (dictLookup (get_disk_path (cacheKey "p" "i") "p") c5s.disk) :=
  (c5_ttl_expiry c5s 0 10 "i" "p" [7] (by decide) (by decide) (by decide)).2 (by decide)

/-- C9: a `get_image` that hits a non-expired memory entry returns the whole
state unchanged — in particular the entry's insertion timestamp is not
refreshed, so a read never re-orders the capacity-eviction queue — and in
every case `get_image` leaves every memory entry other than the queried key,
and the whole disk mirror, untouched. -/
theorem c9_read_frame (s : CacheState) (t : Nat) (image_id page k1 : String)
    (hne : k1 ≠ cacheKey page image_id) :
    (∀ data ts, dictLookup (cacheKey page image_id) s.memory_cache = some (data, ts) →
      t - ts < s.ttl → get_image s t image_id page = (s, some data))
    ∧ dictLookup k1 (get_image s t image_id page).1.memory_cache
        = dictLookup k1 s.memory_cache
    ∧ (get_image s t image_id page).1.disk = s.disk := by
  refine ⟨fun data ts hmem hfresh => by simp [get_image, hmem, hfresh], ?_, ?_⟩
  all_goals
    cases hm : dictLookup (cacheKey page image_id) s.memory_cache with
    | some p =>
        obtain ⟨d0, ts0⟩ := p
        by_cases hf : t - ts0 < s.ttl
        · simp [get_image, hm, hf]
        · cases hd : dictLookup (get_disk_path (cacheKey page image_id) page) s.disk with
          | some d =>
              simp [get_image, hm, hf, diskFallback, hd, dictLookup_insert_ne hne,
                dictLookup_erase_ne hne]
          | none =>
              simp [get_image, hm, hf, diskFallback, hd, dictLookup_erase_ne hne]
    | none =>
        cases hd : dictLookup (get_disk_path (cacheKey page image_id) page) s.disk with
        | some d =>
            simp [get_image, hm, diskFallback, hd, dictLookup_insert_ne hne]
        | none =>
            simp [get_image, hm, diskFallback, hd]

/-- A cache holding fresh entries for `"p:i"` and `"q:z"`. -/
def c9s : CacheState := ⟨[("p:i", ([5], 0)), ("q:z", ([6], 0))], 2, 1000, 10, []⟩

/-- Witness for C9: a fresh hit on `"p:i"` at instant 1 returns the state
unchanged and does not disturb the unrelated key `"q:z"`. -/
theorem c9_read_frame_witness :
    get_image c9s 1 "i" "p" = (c9s, some [5])
    ∧ dictLookup "q:z" (get_image c9s 1 "i" "p").1.memory_cache
        = dictLookup "q:z" c9s.memory_cache
    ∧ (get_image c9s 1 "i" "p").1.disk = c9s.disk :=
  ⟨(c9_read_frame c9s 1 "i" "p" "q:z" (by decide)).1 [5] 0 (by decide) (by decide),
   (c9_read_frame c9s 1 "i" "p" "q:z" (by decide)).2.1,
   (c9_read_frame c9s 1 "i" "p" "q:z" (by decide)).2.2⟩

/-- C6: `cache_image(id, data, page)` followed by `get_image(id, page)` before
TTL elapses returns `data` byte-for-byte with no state change; and after an
out-of-band removal of the entry from the memory table only, `get_image`
still returns the original bytes, sourced from the disk mirror, and
re-populates the memory table with them. -/
theorem c6_round_trip (s s1 s2 : CacheState) (now t : Nat) (image_id page : String)
    (data : ByteSeq) (hwf : WF s) (hclock : now ≤ t) (httl : t < now + s.ttl)
    (hs1 : s1 = (cache_image s now image_id data page).1)
    (hs2 : s2 = { s1 with
        memory_cache := dictErase (cacheKey page image_id) s1.memory_cache }) :
    get_image s1 t image_id page = (s1, some data)
    ∧ (get_image s2 t image_id page).2 = some data
    ∧ dictLookup (cacheKey page image_id) (get_image s2 t image_id page).1.memory_cache
        = some (data, t) := by
  subst hs2
  subst hs1
  have hlook : dictLookup (cacheKey page image_id)
      (cache_image s now image_id data page).1.memory_cache = some (data, now) := by
    rw [cache_image_memory]
    exact dictLookup_insert_self _ _ _
  have httl1 : t - now < (cache_image s now image_id data page).1.ttl := by
    rw [cache_image_ttl]
    omega
  have hwf1 : ((cache_image s now image_id data page).1.memory_cache.map Prod.fst).Nodup :=
    WF_cache_image s now image_id data page hwf
  have hnone : dictLookup (cacheKey page image_id)
      (dictErase (cacheKey page image_id)
        (cache_image s now image_id data page).1.memory_cache) = none :=
    dictLookup_erase_self _ hwf1
  have hdisk : dictLookup (get_disk_path (cacheKey page image_id) page)
      (cache_image s now image_id data page).1.disk = some data := by
    rw [cache_image_disk]
    exact dictLookup_insert_self _ _ _
  refine ⟨by simp [get_image, hlook, httl1], ?_, ?_⟩
  · simp [get_image, hnone, diskFallback, hdisk]
  · simp [get_image, hnone, diskFallback, hdisk, dictLookup_insert_self]

/-- Witness for C6: cache `[9, 8]` at instant 0, read it back at instant 5
(TTL 10) from memory; then delete the memory entry alone and read again,
recovering `[9, 8]` from the disk mirror with a fresh timestamp. -/
theorem c6_round_trip_witness :
    get_image (cache_image ⟨[], 0, 1000, 10, []⟩ 0 "i" [9, 8] "p").1 5 "i" "p"
        = ((cache_image ⟨[], 0, 1000, 10, []⟩ 0 "i" [9, 8] "p").1, some [9, 8])
    ∧ (get_image { (cache_image ⟨[], 0, 1000, 10, []⟩ 0 "i" [9, 8] "p").1 with
          memory_cache := dictErase (cacheKey "p" "i")
            (cache_image ⟨[], 0, 1000, 10, []⟩ 0 "i" [9, 8] "p").1.memory_cache } 5 "i" "p").2
        = some [9, 8]
    ∧ dictLookup (cacheKey "p" "i")
        (get_image { (cache_image ⟨[], 0, 1000, 10, []⟩ 0 "i" [9, 8] "p").1 with
          memory_cache := dictErase (cacheKey "p" "i")
            (cache_image ⟨[], 0, 1000, 10, []⟩ 0 "i" [9, 8] "p").1.memory_cache } 5 "i"
          "p").1.memory_cache = some ([9, 8], 5) :=
  c6_round_trip ⟨[], 0, 1000, 10, []⟩ _ _ 0 5 "i" "p" [9, 8] (by decide) (by decide)
    (by decide) rfl rfl

/-- On a list with pairwise-distinct keys, keeping exactly the elements whose
key does not occur among the first `k` elements keeps exactly the suffix after
position `k` — the shape of `_evict_old_entries`'s per-key deletion. -/
theorem filter_take_victims {β : Type} (l : List (String × β)) :
    ∀ (k : Nat), (l.map Prod.fst).Nodup →
      l.filter (fun e => (l.take k).all (fun v => !(v.1 == e.1))) = l.drop k := by
  induction l with
  | nil =>
    intro k _
    simp
  | cons e rest ih =>
    intro k hnd
    cases k with
    | zero => simp
    | succ k1 =>
      simp only [List.map_cons, List.nodup_cons] at hnd
      have hkeys : ∀ x ∈ rest, (e.1 == x.1) = false := by
        intro x hx
        have hne : e.1 ≠ x.1 := fun hEq => hnd.1 (hEq ▸ List.mem_map_of_mem Prod.fst hx)
        simpa using hne
      have hpe : ((e :: rest).take (k1 + 1)).all (fun v => !(v.1 == e.1)) = false := by
        simp [List.take_succ_cons]
      calc (e :: rest).filter
            (fun x => ((e :: rest).take (k1 + 1)).all (fun v => !(v.1 == x.1)))
          = rest.filter
            (fun x => ((e :: rest).take (k1 + 1)).all (fun v => !(v.1 == x.1))) := by
            simp [List.filter_cons, hpe]
        _ = rest.filter (fun x => (rest.take k1).all (fun v => !(v.1 == x.1))) := by
            apply List.filter_congr
            intro x hx
            simp [List.take_succ_cons, hkeys x hx]
        _ = rest.drop k1 := ih k1 hnd.2
        _ = (e :: rest).drop (k1 + 1) := by simp

/-- Memory table left by a sweep on a non-empty table, as a filter. -/
theorem evict_memory_of_ne (s : CacheState) (hne : s.memory_cache ≠ []) :
    (evict_old_entries s).memory_cache
      = s.memory_cache.filter (fun e =>
          ((List.insertionSort entryLE s.memory_cache).take
            (max 1 ((List.insertionSort entryLE s.memory_cache).length / 5))).all
            (fun v => !(v.1 == e.1))) := by
  unfold evict_old_entries
  split
  next h => exact absurd h hne
  next => rfl

/-- Six entries (1–6 bytes) filling the table to exactly its 21-byte
capacity, inserted at instants 0–5. -/
def ex6 : CacheState :=
  ⟨[("p:a", ([1], 0)), ("p:b", ([2], 1)), ("p:c", ([3], 2)),
    ("p:d", ([4], 3)), ("p:e", ([5], 4)), ("p:f", ([6], 5))], 21, 21, 10, []⟩

/-- C2 counterexample: inserting a 2-byte payload into the exactly-full
6-entry table `ex6` triggers the sweep (21 + 2 > 21), which removes
`max(1, 6 // 5) = 1` entry — not the `⌈6/5⌉ = 2` the claim requires — so the
table afterwards holds 6 entries, not the claimed 6 − 2 + 1 = 5. -/
theorem c2_ceiling_counterexample :
    ¬((cache_image ex6 6 "g" [7, 7] "p").1.memory_cache.length
        = ex6.memory_cache.length - (ex6.memory_cache.length + 4) / 5 + 1) := by decide

/-- C2 (amended): whenever the sweep runs on a non-empty table of `count`
entries it removes exactly the oldest `max(1, ⌊count/5⌋)` entries (at least
one; floor, not ceiling), ordered by insertion timestamp ascending, regardless
of whether that frees enough bytes: the surviving entries are exactly (a
permutation of) the timestamp-sorted table minus its first `max(1, ⌊count/5⌋)`
elements, every removed entry is at least as old as every survivor, and the
table shrinks by exactly that count. -/
theorem c2_sweep_floor (s : CacheState) (hwf : WF s) (hne : s.memory_cache ≠ []) :
    (evict_old_entries s).memory_cache.Perm
      ((List.insertionSort entryLE s.memory_cache).drop
        (max 1 (s.memory_cache.length / 5)))
    ∧ (evict_old_entries s).memory_cache.length
        = s.memory_cache.length - max 1 (s.memory_cache.length / 5)
    ∧ (∀ a ∈ (List.insertionSort entryLE s.memory_cache).take
          (max 1 (s.memory_cache.length / 5)),
       ∀ b ∈ (List.insertionSort entryLE s.memory_cache).drop
          (max 1 (s.memory_cache.length / 5)), a.2.2 ≤ b.2.2) := by
  have hwf1 : (s.memory_cache.map Prod.fst).Nodup := hwf
  have hperm : (List.insertionSort entryLE s.memory_cache).Perm s.memory_cache :=
    List.perm_insertionSort entryLE s.memory_cache
  have hlen : (List.insertionSort entryLE s.memory_cache).length = s.memory_cache.length :=
    hperm.length_eq
  have hnodupS : ((List.insertionSort entryLE s.memory_cache).map Prod.fst).Nodup :=
    ((hperm.map Prod.fst).nodup_iff).mpr hwf1
  have hevict := evict_memory_of_ne s hne
  rw [hlen] at hevict
  have hfil : (List.insertionSort entryLE s.memory_cache).filter
      (fun e => ((List.insertionSort entryLE s.memory_cache).take
        (max 1 (s.memory_cache.length / 5))).all (fun v => !(v.1 == e.1)))
      = (List.insertionSort entryLE s.memory_cache).drop
          (max 1 (s.memory_cache.length / 5)) := by
    have h := filter_take_victims (List.insertionSort entryLE s.memory_cache)
      (max 1 (s.memory_cache.length / 5)) hnodupS
    simpa [hlen] using h
  have hperm1 : (evict_old_entries s).memory_cache.Perm
      ((List.insertionSort entryLE s.memory_cache).drop
        (max 1 (s.memory_cache.length / 5))) := by
    rw [hevict, ← hfil]
    exact (hperm.filter _).symm
  have hlen1 : (evict_old_entries s).memory_cache.length
      = s.memory_cache.length - max 1 (s.memory_cache.length / 5) := by
    rw [hperm1.length_eq, List.length_drop, hlen]
  have hpw : List.Pairwise entryLE
      ((List.insertionSort entryLE s.memory_cache).take
          (max 1 (s.memory_cache.length / 5))
        ++ (List.insertionSort entryLE s.memory_cache).drop
          (max 1 (s.memory_cache.length / 5))) := by
    rw [List.take_append_drop]
    exact List.sorted_insertionSort entryLE s.memory_cache
  exact ⟨hperm1, hlen1, fun a ha b hb => (List.pairwise_append.mp hpw).2.2 a ha b hb⟩

/-- Witness for C2 (amended) at the 6-entry table `ex6`: the sweep keeps a
permutation of the 5 newest entries — it removes exactly `max(1, ⌊6/5⌋) = 1`. -/
theorem c2_sweep_floor_witness :
    (evict_old_entries ex6).memory_cache.Perm
      ((List.insertionSort entryLE ex6.memory_cache).drop
        (max 1 (ex6.memory_cache.length / 5)))
    ∧ (evict_old_entries ex6).memory_cache.length
        = ex6.memory_cache.length - max 1 (ex6.memory_cache.length / 5) :=
  ⟨(c2_sweep_floor ex6 (by decide) (by decide)).1,
   (c2_sweep_floor ex6 (by decide) (by decide)).2.1⟩
